import Mathlib

/-!
Verification of the benchmark measurement and aggregation subsystem of the
`rust-crypto-microservices` repository: the lattice service (`/kem_bench`),
the zk service (`/zk_prove_bench`, `/zk_verify_bench`) and the bench client.

Conventions of the embedding:
* Durations are microsecond counts, `ℕ` (the Rust code records
  `Instant::elapsed().as_micros() : u128`).  Real time is not modelled: a
  sampling loop of `n` iterations is parameterised by a clock oracle
  `d : ℕ → ℕ` giving the elapsed microseconds of each iteration.
* `f64` values are modelled exactly: finite doubles as `ℚ` (every number
  that actually flows through these formulas — integer casts, sums and the
  single divisions — is treated as exact), plus the two non-finite values
  the code can produce, `nan` (from `0.0 / 0.0` on an empty sample) and
  `inf` (never reached here).  Comparisons with `nan` are false, as in
  IEEE 754.
* A Rust `panic!` / out-of-bounds indexing is modelled by `Option`, with
  `none` for the panic.
* `axum` semantics: a handler returning `Json<T>` always answers 200 while
  `Result<Json<T>, AppError>` answers 400 through `AppError::into_response`;
  this is the `HandlerResult` sum below.
-/

/-- Model of an `f64` as it is used by the statistics code: a finite value
(exact rational), `nan`, or `inf`. -/
inductive F64 where
  | nan : F64
  | inf : F64
  | val : ℚ → F64
deriving DecidableEq, Repr

/-- IEEE division of two finite doubles: `0.0 / 0.0` is `nan`,
`x / 0.0` with `x ≠ 0` is an infinity (all numerators here are
non-negative, so the sign is dropped), otherwise exact. -/
def fdiv (a b : ℚ) : F64 :=
  if b = 0 then (if a = 0 then F64.nan else F64.inf) else F64.val (a / b)

/-- IEEE division on the `F64` model (`nan` propagates). -/
def F64.div : F64 → F64 → F64
  | F64.nan, _ => F64.nan
  | _, F64.nan => F64.nan
  | F64.inf, F64.inf => F64.nan
  | F64.inf, F64.val _ => F64.inf
  | F64.val _, F64.inf => F64.val 0
  | F64.val a, F64.val b => fdiv a b

/-- The Rust comparison `x > 0.0`: false on `nan`, true on `+inf`. -/
def F64.gt0 : F64 → Bool
  | F64.nan => false
  | F64.inf => true
  | F64.val q => decide (0 < q)

/-- One sampling loop: iterate `iterations` times, pushing each iteration's
elapsed whole microseconds (from the clock oracle `d`).  Both services'
`bench_*` loops produce their timing vector this way. -/
def benchTimings (d : ℕ → ℕ) (iterations : ℕ) : List ℕ :=
  (List.range iterations).map d

/-- Ascending sort, the model of `sort_unstable()` (any correct sort is
extensionally the same list, see `sortAsc_unique`). -/
def sortAsc (l : List ℕ) : List ℕ :=
  l.insertionSort (· ≤ ·)

/-- The `usize` subtraction `n - 1`: wraps around to `2^64 - 1` at `n = 0`
(in a release build; a debug build panics there, but in either case the
subsequent index is out of bounds for an empty slice). -/
def usizeDecr (n : ℕ) : ℕ :=
  if n = 0 then 2 ^ 64 - 1 else n - 1

/-- Result of an axum handler: `ok` is a 200 response carrying the JSON
body, `err` a 400 response carrying the error message. -/
inductive HandlerResult (ε : Type) (α : Type) where
  | err : ε → HandlerResult ε α
  | ok : α → HandlerResult ε α
deriving DecidableEq, Repr

namespace Lattice

/-- `compute_p95` of `src/lattice_service/src/main.rs`: on a non-empty
slice, sort ascending and take index `min ⌊len · 0.95⌋ (len - 1)`.
The cast `(len as f64 * 0.95) as usize` is `⌊len · 0.95⌋₊`: for every list
length the double rounding of `len * 0.95_f64` stays strictly inside the
unit interval around the exact product, so no integer boundary is
crossed. -/
def compute_p95 (timings : List ℕ) : ℚ :=
  if timings.isEmpty then 0
  else
    let sorted := sortAsc timings
    let idx := ⌊(sorted.length : ℚ) * (95 / 100)⌋₊
    let idx2 := min idx (sorted.length - 1)
    ((sorted.getD idx2 0 : ℕ) : ℚ)

/-- The five statistics returned by the lattice `compute_stats` (the Rust
tuple `(avg, min, max, p95, throughput)`). -/
structure KemStats where
  avg : F64
  min : ℚ
  max : ℚ
  p95 : ℚ
  throughput : F64
deriving DecidableEq, Repr

/-- `compute_stats` of the lattice service.  Note there is no emptiness
guard before `sum as f64 / timings.len() as f64`: on an empty slice this
is `0.0 / 0.0 = nan`, while `min`/`max` use `unwrap_or(&0)` and
`compute_p95` has its own guard. -/
def compute_stats (timings : List ℕ) : KemStats :=
  let sum := timings.sum
  let avg := fdiv (sum : ℚ) (timings.length : ℚ)
  let mn : ℚ := ((timings.min?.getD 0 : ℕ) : ℚ)
  let mx : ℚ := ((timings.max?.getD 0 : ℕ) : ℚ)
  let p95 := compute_p95 timings
  let throughput := if avg.gt0 then F64.div (F64.val 1000000) avg else F64.val 0
  ⟨avg, mn, mx, p95, throughput⟩

end Lattice

namespace Zk

/-- `compute_percentile` of `src/zk_service/src/main.rs`.  There is no
emptiness guard: `sorted[idx.min(sorted.len() - 1)]` underflows the
`usize` subtraction and indexes out of bounds when the slice is empty;
the panic is the `none` result.  The `as usize` cast of a non-negative
double is `Nat.floor`. -/
def compute_percentile (timings : List ℕ) (percentile : ℚ) : Option ℚ :=
  let sorted := sortAsc timings
  let idx := ⌊(sorted.length : ℚ) * percentile⌋₊
  (sorted[min idx (usizeDecr sorted.length)]?).map (fun x => ((x : ℕ) : ℚ))

/-- The `Stats` struct of the zk service (all converted to milliseconds). -/
structure ZkStats where
  avg_ms : F64
  min_ms : ℚ
  max_ms : ℚ
  p95_ms : ℚ
  throughput : F64
deriving DecidableEq, Repr

/-- `compute_stats` of the zk service: explicit empty guard returning all
zeros, then mean / min / max / p95 in microseconds, converted to
milliseconds, `throughput = 1000 / avg_ms` when positive.  The `unwrap()`
on `min`/`max` and the unguarded `compute_percentile` would panic (`none`)
on an empty slice, but that branch is unreachable past the guard. -/
def compute_stats (timings_us : List ℕ) : Option ZkStats :=
  if timings_us.isEmpty then
    some ⟨F64.val 0, 0, 0, 0, F64.val 0⟩
  else
    (timings_us.min?).bind fun min_us =>
    (timings_us.max?).bind fun max_us =>
    (compute_percentile timings_us (95 / 100)).map fun p95_us =>
      let sum := timings_us.sum
      let avg_us := fdiv (sum : ℚ) (timings_us.length : ℚ)
      let avg_ms := F64.div avg_us (F64.val 1000)
      let throughput := if avg_ms.gt0 then F64.div (F64.val 1000) avg_ms else F64.val 0
      ⟨avg_ms, (min_us : ℚ) / 1000, (max_us : ℚ) / 1000, p95_us / 1000, throughput⟩

end Zk

namespace Lattice

/-- The three ML-KEM parameter sets of the `ml_kem` crate. -/
inductive Param where
  | p512 : Param
  | p768 : Param
  | p1024 : Param
deriving DecidableEq, Repr

/-- The KEM primitives a benchmark body can invoke (each tagged with the
parameter set of the key material it acts on). -/
inductive Prim where
  | keygen : Param → Prim
  | encaps : Param → Prim
  | decaps : Param → Prim
deriving DecidableEq, Repr

/-- Shape of one `bench_*` function of the lattice service: the crypto
operations run once before the loop (`setup`, untimed) and the operations
inside the `Instant::now() .. elapsed()` window of each iteration
(`timedBody`). -/
structure KemBench where
  setup : List Prim
  timedBody : List Prim
deriving DecidableEq, Repr

/-- `bench_keygen_768`: no setup; times `MlKem768::generate`. -/
def bench_keygen_768 : KemBench :=
  ⟨[], [Prim.keygen Param.p768]⟩

/-- `bench_encaps_768`: generates one ML-KEM-768 keypair outside the loop,
times `ek.encapsulate` per iteration. -/
def bench_encaps_768 : KemBench :=
  ⟨[Prim.keygen Param.p768], [Prim.encaps Param.p768]⟩

/-- `bench_decaps_768`: keypair and one ciphertext outside the loop, times
`dk.decapsulate`. -/
def bench_decaps_768 : KemBench :=
  ⟨[Prim.keygen Param.p768, Prim.encaps Param.p768], [Prim.decaps Param.p768]⟩

/-- `bench_full_handshake_768`: no setup; times keygen, encaps and decaps
together per iteration. -/
def bench_full_handshake_768 : KemBench :=
  ⟨[], [Prim.keygen Param.p768, Prim.encaps Param.p768, Prim.decaps Param.p768]⟩

/-- `bench_keygen_512`. -/
def bench_keygen_512 : KemBench :=
  ⟨[], [Prim.keygen Param.p512]⟩

/-- `bench_encaps_512`. -/
def bench_encaps_512 : KemBench :=
  ⟨[Prim.keygen Param.p512], [Prim.encaps Param.p512]⟩

/-- `bench_decaps_512`. -/
def bench_decaps_512 : KemBench :=
  ⟨[Prim.keygen Param.p512, Prim.encaps Param.p512], [Prim.decaps Param.p512]⟩

/-- `bench_full_handshake_512`. -/
def bench_full_handshake_512 : KemBench :=
  ⟨[], [Prim.keygen Param.p512, Prim.encaps Param.p512, Prim.decaps Param.p512]⟩

/-- `bench_keygen_1024`: times `MlKem1024::generate`. -/
def bench_keygen_1024 : KemBench :=
  ⟨[], [Prim.keygen Param.p1024]⟩

/-- `bench_encaps_1024` as written in the source (line 196): the setup is
`MlKem512::generate(&mut OsRng)`, so the encapsulation key `ek` — and
therefore the operation timed in the loop — belongs to ML-KEM-**512**,
not ML-KEM-1024. -/
def bench_encaps_1024 : KemBench :=
  ⟨[Prim.keygen Param.p512], [Prim.encaps Param.p512]⟩

/-- `bench_decaps_1024`: ML-KEM-1024 keypair and ciphertext outside the
loop, times `dk.decapsulate`. -/
def bench_decaps_1024 : KemBench :=
  ⟨[Prim.keygen Param.p1024, Prim.encaps Param.p1024], [Prim.decaps Param.p1024]⟩

/-- `bench_full_handshake_1024`. -/
def bench_full_handshake_1024 : KemBench :=
  ⟨[], [Prim.keygen Param.p1024, Prim.encaps Param.p1024, Prim.decaps Param.p1024]⟩

/-- The `match (param_set, operation)` dispatch table of `kem_bench`
(one arm per supported pair; the wildcard arm gives `none`). -/
def kemDispatch (param_set operation : String) : Option KemBench :=
  if param_set = "ml_kem_768" ∧ operation = "keygen" then some bench_keygen_768
  else if param_set = "ml_kem_768" ∧ operation = "encaps" then some bench_encaps_768
  else if param_set = "ml_kem_768" ∧ operation = "decaps" then some bench_decaps_768
  else if param_set = "ml_kem_768" ∧ operation = "full_handshake" then some bench_full_handshake_768
  else if param_set = "ml_kem_512" ∧ operation = "keygen" then some bench_keygen_512
  else if param_set = "ml_kem_512" ∧ operation = "encaps" then some bench_encaps_512
  else if param_set = "ml_kem_512" ∧ operation = "decaps" then some bench_decaps_512
  else if param_set = "ml_kem_512" ∧ operation = "full_handshake" then some bench_full_handshake_512
  else if param_set = "ml_kem_1024" ∧ operation = "keygen" then some bench_keygen_1024
  else if param_set = "ml_kem_1024" ∧ operation = "encaps" then some bench_encaps_1024
  else if param_set = "ml_kem_1024" ∧ operation = "decaps" then some bench_decaps_1024
  else if param_set = "ml_kem_1024" ∧ operation = "full_handshake" then some bench_full_handshake_1024
  else none

/-- Request body of `POST /kem_bench`. -/
structure KemBenchRequest where
  param_set : String
  iterations : ℕ
  operation : String
deriving DecidableEq, Repr

/-- Response body of `POST /kem_bench` (the capture timestamp is wall
clock and is not modelled). -/
structure KemBenchResponse where
  operation : String
  param_set : String
  iterations : ℕ
  avg_us : F64
  min_us : ℚ
  max_us : ℚ
  p95_us : ℚ
  throughput_ops_sec : F64
deriving DecidableEq, Repr

/-- The iteration clamp of `kem_bench`:
`req.iterations.min(10000).max(1)`. -/
def kemClamp (n : ℕ) : ℕ :=
  max (min n 10000) 1

/-- The timing vector `kem_bench` reduces: the dispatched benchmark's
samples for a supported pair, the placeholder `vec![0]` of the
`_ => // unsupported combo` arm otherwise. -/
def kem_timings (d : ℕ → ℕ) (req : KemBenchRequest) : List ℕ :=
  match kemDispatch req.param_set req.operation with
  | some _ => benchTimings d (kemClamp req.iterations)
  | none => [0]

/-- The `kem_bench` handler.  Its Rust signature returns a plain
`Json<KemBenchResponse>`, so every request — supported combination or
not — gets a 200 response; there is no error path in this handler. -/
def kem_bench (d : ℕ → ℕ) (req : KemBenchRequest) : HandlerResult String KemBenchResponse :=
  let iterations := kemClamp req.iterations
  let s := compute_stats (kem_timings d req)
  HandlerResult.ok ⟨req.operation, req.param_set, iterations, s.avg, s.min, s.max, s.p95, s.throughput⟩

end Lattice

namespace Zk

/-- The Groth16 operations a zk benchmark performs. -/
inductive ZkPrim where
  | prove : ZkPrim
  | prepareVk : ZkPrim
  | verify : ZkPrim
deriving DecidableEq, Repr

/-- Shape of a zk `bench_*` function: operations before the loop (untimed)
and operations inside the timed window of each iteration.  Witness / public
input construction is plain field arithmetic done outside the timed window
and is not listed. -/
structure ZkBenchPlan where
  setup : List ZkPrim
  timedBody : List ZkPrim
deriving DecidableEq, Repr

/-- `bench_prove_multiply`: the circuit witness is rebuilt per iteration
before `Instant::now()`; only `Groth16::prove` is inside the timed
window; no one-time setup beyond the cached proving key. -/
def bench_prove_multiply_plan : ZkBenchPlan :=
  ⟨[], [ZkPrim.prove]⟩

/-- `bench_verify_multiply`: one proof is generated and the verifying key
prepared once before the loop; each iteration times only
`Groth16::verify_with_processed_vk`. -/
def bench_verify_multiply_plan : ZkBenchPlan :=
  ⟨[ZkPrim.prove, ZkPrim.prepareVk], [ZkPrim.verify]⟩

/-- Request body of the two zk endpoints. -/
structure ZkBenchRequest where
  circuit_id : String
  iterations : ℕ
deriving DecidableEq, Repr

/-- Response body of `POST /zk_prove_bench` (proof size and timestamp are
external artifacts, not modelled). -/
structure ZkProveBenchResponse where
  circuit_id : String
  iterations : ℕ
  avg_prove_ms : F64
  min_prove_ms : ℚ
  max_prove_ms : ℚ
  p95_prove_ms : ℚ
  throughput_proofs_sec : F64
deriving DecidableEq, Repr

/-- Response body of `POST /zk_verify_bench`. -/
structure ZkVerifyBenchResponse where
  circuit_id : String
  iterations : ℕ
  avg_verify_ms : F64
  min_verify_ms : ℚ
  max_verify_ms : ℚ
  p95_verify_ms : ℚ
  throughput_verifies_sec : F64
deriving DecidableEq, Repr

/-- The iteration clamp of `zk_prove_bench`: `req.iterations.clamp(1, 1000)`. -/
def zkProveClamp (n : ℕ) : ℕ :=
  min (max n 1) 1000

/-- The iteration clamp of `zk_verify_bench`: `req.iterations.clamp(1, 5000)`. -/
def zkVerifyClamp (n : ℕ) : ℕ :=
  min (max n 1) 5000

/-- The `zk_prove_bench` handler: clamp, dispatch on `circuit_id` (only
`"multiply"` is registered; anything else is `AppError::InvalidCircuit`,
a 400 whose body is `format!("Invalid circuit_id: {}", circuit_id)`),
sample, reduce.  The outer `Option` carries panic-freedom of the
statistics reduction. -/
def zk_prove_bench (d : ℕ → ℕ) (req : ZkBenchRequest) :
    Option (HandlerResult String ZkProveBenchResponse) :=
  let iterations := zkProveClamp req.iterations
  if req.circuit_id = "multiply" then
    (compute_stats (benchTimings d iterations)).map fun s =>
      HandlerResult.ok
        ⟨req.circuit_id, iterations, s.avg_ms, s.min_ms, s.max_ms, s.p95_ms, s.throughput⟩
  else some (HandlerResult.err ("Invalid circuit_id: " ++ req.circuit_id))

/-- The `zk_verify_bench` handler. -/
def zk_verify_bench (d : ℕ → ℕ) (req : ZkBenchRequest) :
    Option (HandlerResult String ZkVerifyBenchResponse) :=
  let iterations := zkVerifyClamp req.iterations
  if req.circuit_id = "multiply" then
    (compute_stats (benchTimings d iterations)).map fun s =>
      HandlerResult.ok
        ⟨req.circuit_id, iterations, s.avg_ms, s.min_ms, s.max_ms, s.p95_ms, s.throughput⟩
  else some (HandlerResult.err ("Invalid circuit_id: " ++ req.circuit_id))

end Zk

namespace Client

/-- `f64::MAX`, the initial accumulator of the client's min fold. -/
def f64MAX : ℚ :=
  2 ^ 1024 - 2 ^ 971

/-- The per-response statistics the client parses out of one successful
`/kem_bench` response (microseconds). -/
structure KemResp where
  avg_us : ℚ
  min_us : ℚ
  max_us : ℚ
  p95_us : ℚ
  throughput_ops_sec : ℚ
deriving DecidableEq, Repr

/-- The per-response statistics of one successful `/zk_prove_bench`
response (already milliseconds). -/
structure ZkProveResp where
  avg_prove_ms : ℚ
  min_prove_ms : ℚ
  max_prove_ms : ℚ
  p95_prove_ms : ℚ
  throughput_proofs_sec : ℚ
deriving DecidableEq, Repr

/-- The five aggregated latency/throughput fields of `BenchmarkResult`
(label, counts and the client wall-clock fields are configuration or real
time and are not modelled). -/
structure AggStats where
  avg_latency_ms : ℚ
  min_latency_ms : ℚ
  max_latency_ms : ℚ
  p95_latency_ms : ℚ
  throughput_ops_sec : ℚ
deriving DecidableEq, Repr

/-- The aggregation block of `run_kem_benchmark` (lines 248-257): means of
`avg_us` / `p95_us` / `throughput_ops_sec`, `fold(f64::MAX, f64::min)`
over `min_us`, `fold(0.0, f64::max)` over `max_us`, then microseconds to
milliseconds except for throughput; all zeros when no response
succeeded. -/
def kem_aggregate (results : List KemResp) : AggStats :=
  if results.isEmpty then ⟨0, 0, 0, 0, 0⟩
  else
    let n : ℚ := results.length
    let avg := (results.map (·.avg_us)).sum / n
    let mn := (results.map (·.min_us)).foldl Min.min f64MAX
    let mx := (results.map (·.max_us)).foldl Max.max 0
    let p95 := (results.map (·.p95_us)).sum / n
    let tp := (results.map (·.throughput_ops_sec)).sum / n
    ⟨avg / 1000, mn / 1000, mx / 1000, p95 / 1000, tp⟩

/-- The aggregation block of `run_zk_prove_benchmark` (lines 334-343):
identical folds, without unit conversion (`run_zk_verify_benchmark` is the
same computation on the verify field names). -/
def zk_prove_aggregate (results : List ZkProveResp) : AggStats :=
  if results.isEmpty then ⟨0, 0, 0, 0, 0⟩
  else
    let n : ℚ := results.length
    let avg := (results.map (·.avg_prove_ms)).sum / n
    let mn := (results.map (·.min_prove_ms)).foldl Min.min f64MAX
    let mx := (results.map (·.max_prove_ms)).foldl Max.max 0
    let p95 := (results.map (·.p95_prove_ms)).sum / n
    let tp := (results.map (·.throughput_proofs_sec)).sum / n
    ⟨avg, mn, mx, p95, tp⟩

/-- Outcome of one of the R spawned requests: `some` a parsed response on
transport success with a well-formed body, `none` otherwise.  The
collection loop pushes successes into `results`. -/
def successes {α : Type} (outcomes : List (Option α)) : List α :=
  outcomes.filterMap id

/-- The `errors` counter after the collection loop: one increment per
failed outcome. -/
def error_count {α : Type} (outcomes : List (Option α)) : ℕ :=
  (outcomes.filter (fun o => o.isNone)).length

/-- The param-set list the `Suite` command iterates over, exactly as
written in `main` (line 503). -/
def suite_kem_param_sets : List String :=
  ["ml_kem_512", "ml_kem_767", "ml_kem_1024"]

/-- The operation list the `Suite` command iterates over. -/
def suite_kem_operations : List String :=
  ["keygen", "encaps", "decaps", "full_handshake"]

/-- The circuit list the `Suite` command iterates over. -/
def suite_circuits : List String :=
  ["multiply", "cube_root"]

/-- One benchmark invocation issued by the `Suite` command:
(service, variant, operation, per-request iteration count). -/
structure SuiteCall where
  service : String
  variant : String
  operation : String
  iterations : ℕ
deriving DecidableEq, Repr

/-- The full sequence of benchmark invocations the `Suite` command issues:
every (param-set, operation) pair with `kem_iterations`, then per circuit
one prove run with `zk_iterations` and one verify run with
`zk_iterations * 10`. -/
def suite_calls (kem_iterations zk_iterations : ℕ) : List SuiteCall :=
  (suite_kem_param_sets.flatMap fun ps =>
    suite_kem_operations.map fun op =>
      ⟨"lattice_service", ps, op, kem_iterations⟩)
  ++ (suite_circuits.flatMap fun c =>
      [⟨"zk_service", c, "prove", zk_iterations⟩,
       ⟨"zk_service", c, "verify", zk_iterations * 10⟩])

end Client

/-! Helper lemmas about the embedded definitions. -/

theorem sortAsc_sorted (l : List ℕ) : (sortAsc l).Sorted (· ≤ ·) :=
  List.sorted_insertionSort _ l

theorem sortAsc_perm (l : List ℕ) : (sortAsc l).Perm l :=
  List.perm_insertionSort _ l

theorem sortAsc_length (l : List ℕ) : (sortAsc l).length = l.length :=
  List.length_insertionSort _ l

theorem sortAsc_unique (l s : List ℕ) (hp : s.Perm l) (hs : s.Sorted (· ≤ ·)) :
    s = sortAsc l :=
  List.eq_of_perm_of_sorted (hp.trans (sortAsc_perm l).symm) hs (sortAsc_sorted l)

theorem p95_index_eq (n : ℕ) : ⌊(n : ℚ) * (95 / 100)⌋₊ = n * 95 / 100 := by
  have h : (n : ℚ) * (95 / 100) = ((n * 95 : ℕ) : ℚ) / ((100 : ℕ) : ℚ) := by
    push_cast
    ring
  rw [h, Nat.floor_div_nat, Nat.floor_natCast]

theorem fdiv_val {a b : ℚ} (hb : b ≠ 0) : fdiv a b = F64.val (a / b) := by
  simp [fdiv, hb]

theorem length_cast_pos {l : List ℕ} (hne : l ≠ []) : 0 < ((l.length : ℚ)) := by
  have := List.length_pos.mpr hne
  exact_mod_cast this

theorem le_sum_div_length (l : List ℕ) (m : ℕ) (hne : l ≠ []) (h : ∀ x ∈ l, m ≤ x) :
    (m : ℚ) ≤ (l.sum : ℚ) / (l.length : ℚ) := by
  rw [le_div_iff₀ (length_cast_pos hne)]
  have hn : l.length * m ≤ l.sum := by
    simpa [smul_eq_mul] using List.card_nsmul_le_sum l m h
  calc (m : ℚ) * (l.length : ℚ) = ((l.length * m : ℕ) : ℚ) := by push_cast; ring
  _ ≤ (l.sum : ℚ) := by exact_mod_cast hn

theorem sum_div_length_le (l : List ℕ) (M : ℕ) (hne : l ≠ []) (h : ∀ x ∈ l, x ≤ M) :
    (l.sum : ℚ) / (l.length : ℚ) ≤ (M : ℚ) := by
  rw [div_le_iff₀ (length_cast_pos hne)]
  have hn : l.sum ≤ l.length * M := by
    simpa [smul_eq_mul] using List.sum_le_card_nsmul l M h
  calc (l.sum : ℚ) ≤ ((l.length * M : ℕ) : ℚ) := by exact_mod_cast hn
  _ = (M : ℚ) * (l.length : ℚ) := by push_cast; ring

theorem le_qsum_div_length (l : List ℚ) (m : ℚ) (hne : l ≠ []) (h : ∀ x ∈ l, m ≤ x) :
    m ≤ l.sum / (l.length : ℚ) := by
  have hlen : 0 < ((l.length : ℚ)) := by
    have := List.length_pos.mpr hne
    exact_mod_cast this
  rw [le_div_iff₀ hlen]
  have := List.card_nsmul_le_sum l m h
  simpa [smul_eq_mul, mul_comm] using this

theorem qsum_div_length_le (l : List ℚ) (M : ℚ) (hne : l ≠ []) (h : ∀ x ∈ l, x ≤ M) :
    l.sum / (l.length : ℚ) ≤ M := by
  have hlen : 0 < ((l.length : ℚ)) := by
    have := List.length_pos.mpr hne
    exact_mod_cast this
  rw [div_le_iff₀ hlen]
  have := List.sum_le_card_nsmul l M h
  simpa [smul_eq_mul, mul_comm] using this

theorem foldl_min_le_init (l : List ℚ) (a : ℚ) : l.foldl Min.min a ≤ a := by
  induction l generalizing a with
  | nil => exact le_refl a
  | cons x xs ih => exact le_trans (ih (min a x)) (min_le_left a x)

theorem foldl_min_le_mem (l : List ℚ) (a : ℚ) {x : ℚ} (hx : x ∈ l) :
    l.foldl Min.min a ≤ x := by
  induction l generalizing a with
  | nil => cases hx
  | cons y ys ih =>
    rcases List.mem_cons.mp hx with h | h
    · subst h
      exact le_trans (foldl_min_le_init ys (min a x)) (min_le_right a x)
    · exact ih (min a y) h

theorem foldl_min_eq_or (l : List ℚ) (a : ℚ) :
    l.foldl Min.min a = a ∨ l.foldl Min.min a ∈ l := by
  induction l generalizing a with
  | nil => exact Or.inl rfl
  | cons x xs ih =>
    rcases ih (min a x) with h | h
    · rcases min_choice a x with hc | hc
      · exact Or.inl (by rw [List.foldl_cons, h, hc])
      · exact Or.inr (by rw [List.foldl_cons, h, hc]; exact List.mem_cons_self x xs)
    · exact Or.inr (List.mem_cons_of_mem x h)

theorem init_le_foldl_max (l : List ℚ) (a : ℚ) : a ≤ l.foldl Max.max a := by
  induction l generalizing a with
  | nil => exact le_refl a
  | cons x xs ih => exact le_trans (le_max_left a x) (ih (max a x))

theorem mem_le_foldl_max (l : List ℚ) (a : ℚ) {x : ℚ} (hx : x ∈ l) :
    x ≤ l.foldl Max.max a := by
  induction l generalizing a with
  | nil => cases hx
  | cons y ys ih =>
    rcases List.mem_cons.mp hx with h | h
    · subst h
      exact le_trans (le_max_right a x) (init_le_foldl_max ys (max a x))
    · exact ih (max a y) h

theorem foldl_max_eq_or (l : List ℚ) (a : ℚ) :
    l.foldl Max.max a = a ∨ l.foldl Max.max a ∈ l := by
  induction l generalizing a with
  | nil => exact Or.inl rfl
  | cons x xs ih =>
    rcases ih (max a x) with h | h
    · rcases max_choice a x with hc | hc
      · exact Or.inl (by rw [List.foldl_cons, h, hc])
      · exact Or.inr (by rw [List.foldl_cons, h, hc]; exact List.mem_cons_self x xs)
    · exact Or.inr (List.mem_cons_of_mem x h)

theorem foldl_min_mem (l : List ℚ) (a : ℚ) (hne : l ≠ []) (hb : ∀ x ∈ l, x ≤ a) :
    l.foldl Min.min a ∈ l := by
  rcases foldl_min_eq_or l a with h | h
  · rcases List.exists_mem_of_ne_nil l hne with ⟨x, hx⟩
    have h1 : x ≤ a := hb x hx
    have h2 : l.foldl Min.min a ≤ x := foldl_min_le_mem l a hx
    have : a = x := le_antisymm (h ▸ h2) h1
    rw [h, this]
    exact hx
  · exact h

theorem foldl_max_mem (l : List ℚ) (a : ℚ) (hne : l ≠ []) (hb : ∀ x ∈ l, a ≤ x) :
    l.foldl Max.max a ∈ l := by
  rcases foldl_max_eq_or l a with h | h
  · rcases List.exists_mem_of_ne_nil l hne with ⟨x, hx⟩
    have h1 : a ≤ x := hb x hx
    have h2 : x ≤ l.foldl Max.max a := mem_le_foldl_max l a hx
    have : a = x := le_antisymm h1 (h ▸ h2)
    rw [h, this]
    exact hx
  · exact h

theorem min?_spec (l : List ℕ) (hne : l ≠ []) :
    ∃ m, l.min? = some m ∧ m ∈ l ∧ ∀ x ∈ l, m ≤ x := by
  cases hm : l.min? with
  | none => exact absurd (List.min?_eq_none_iff.mp hm) hne
  | some m =>
    have h := List.min?_eq_some_iff'.mp hm
    exact ⟨m, rfl, h.1, h.2⟩

theorem max?_spec (l : List ℕ) (hne : l ≠ []) :
    ∃ M, l.max? = some M ∧ M ∈ l ∧ ∀ x ∈ l, x ≤ M := by
  cases hm : l.max? with
  | none => exact absurd (List.max?_eq_none_iff.mp hm) hne
  | some M =>
    have h := List.max?_eq_some_iff'.mp hm
    exact ⟨M, rfl, h.1, h.2⟩

theorem p95_idx_lt (l : List ℕ) (hne : l ≠ []) :
    min (l.length * 95 / 100) (l.length - 1) < l.length := by
  have h : 0 < l.length := List.length_pos.mpr hne
  exact lt_of_le_of_lt (min_le_right _ _) (by omega)

theorem compute_p95_eq_getD (l : List ℕ) (hne : l ≠ []) :
    Lattice.compute_p95 l =
      (((sortAsc l).getD (min (l.length * 95 / 100) (l.length - 1)) 0 : ℕ) : ℚ) := by
  rw [Lattice.compute_p95, if_neg (by simp [hne])]
  simp only [sortAsc_length, p95_index_eq]

theorem compute_p95_mem (l : List ℕ) (hne : l ≠ []) :
    ∃ x ∈ l, Lattice.compute_p95 l = (x : ℚ) := by
  rw [compute_p95_eq_getD l hne]
  have hi : min (l.length * 95 / 100) (l.length - 1) < (sortAsc l).length := by
    rw [sortAsc_length]
    exact p95_idx_lt l hne
  rw [List.getD_eq_getElem _ _ hi]
  exact ⟨_, (sortAsc_perm l).mem_iff.mp (List.getElem_mem hi), rfl⟩

theorem compute_percentile_empty (p : ℚ) : Zk.compute_percentile [] p = none := by
  simp [Zk.compute_percentile, sortAsc]

theorem compute_percentile_nonempty (l : List ℕ) (hne : l ≠ []) :
    Zk.compute_percentile l (95 / 100) = some (Lattice.compute_p95 l) := by
  have hpos : 0 < l.length := List.length_pos.mpr hne
  have hud : usizeDecr l.length = l.length - 1 := by
    rw [usizeDecr, if_neg (Nat.pos_iff_ne_zero.mp hpos)]
  have hi : min (l.length * 95 / 100) (l.length - 1) < (sortAsc l).length := by
    rw [sortAsc_length]
    exact p95_idx_lt l hne
  rw [Zk.compute_percentile]
  simp only [sortAsc_length, p95_index_eq, hud]
  rw [List.getElem?_eq_getElem hi]
  rw [compute_p95_eq_getD l hne, List.getD_eq_getElem _ _ hi]
  simp

theorem lattice_stats_nonempty (l : List ℕ) (hne : l ≠ []) :
    Lattice.compute_stats l =
      { avg := F64.val ((l.sum : ℚ) / (l.length : ℚ))
        min := ((l.min?.getD 0 : ℕ) : ℚ)
        max := ((l.max?.getD 0 : ℕ) : ℚ)
        p95 := Lattice.compute_p95 l
        throughput :=
          if 0 < (l.sum : ℚ) / (l.length : ℚ) then
            F64.val (1000000 / ((l.sum : ℚ) / (l.length : ℚ)))
          else F64.val 0 } := by
  have hb : ((l.length : ℚ)) ≠ 0 := ne_of_gt (length_cast_pos hne)
  simp only [Lattice.compute_stats, fdiv_val hb, F64.div, F64.gt0, decide_eq_true_eq]
  split_ifs with h
  · rw [fdiv_val (ne_of_gt h)]
  · rfl

theorem zk_stats_nonempty (l : List ℕ) (hne : l ≠ []) (m M : ℕ)
    (hm : l.min? = some m) (hM : l.max? = some M) :
    Zk.compute_stats l =
      some { avg_ms := F64.val ((l.sum : ℚ) / (l.length : ℚ) / 1000)
             min_ms := (m : ℚ) / 1000
             max_ms := (M : ℚ) / 1000
             p95_ms := Lattice.compute_p95 l / 1000
             throughput :=
               if 0 < (l.sum : ℚ) / (l.length : ℚ) / 1000 then
                 F64.val (1000 / ((l.sum : ℚ) / (l.length : ℚ) / 1000))
               else F64.val 0 } := by
  have hb : ((l.length : ℚ)) ≠ 0 := ne_of_gt (length_cast_pos hne)
  rw [Zk.compute_stats, if_neg (by simp [hne]), hm, hM, compute_percentile_nonempty l hne]
  simp only [Option.some_bind, fdiv_val hb, F64.div,
    fdiv_val (show (1000 : ℚ) ≠ 0 by norm_num), F64.gt0, decide_eq_true_eq]
  split_ifs with h
  · rw [fdiv_val (ne_of_gt h)]
    rfl
  · rfl

theorem lattice_stats_zero :
    Lattice.compute_stats [0] = ⟨F64.val 0, 0, 0, 0, F64.val 0⟩ := by
  rw [lattice_stats_nonempty [0] (by simp)]
  have hp : Lattice.compute_p95 [0] = 0 := by
    rw [compute_p95_eq_getD [0] (by simp)]
    simp [sortAsc]
  simp [hp, List.min?, List.max?]

/-! Claim theorems. -/

/-- Claim C1, counterexample: the request `param_set = "ml_kem_999"`,
`operation = "keygen"`, `iterations = 10` hits no dispatch arm (so no
benchmark runs), yet `kem_bench` returns a 200 `ok` response — built from
the placeholder sample `[0]`, hence all statistics zero — and not the 400
error the claim requires. -/
theorem c1_counterexample :
    Lattice.kem_bench (fun _ => 0) ⟨"ml_kem_999", 10, "keygen"⟩ =
      HandlerResult.ok ⟨"keygen", "ml_kem_999", 10, F64.val 0, 0, 0, 0, F64.val 0⟩ ∧
    Lattice.kemDispatch "ml_kem_999" "keygen" = none := by
  have hd : Lattice.kemDispatch "ml_kem_999" "keygen" = none := by decide
  refine ⟨?_, hd⟩
  rw [Lattice.kem_bench]
  simp [Lattice.kem_timings, hd, lattice_stats_zero, Lattice.kemClamp]

/-- Claim C1 (amended): a `/kem_bench` request whose (param_set, operation)
pair resolves to no registered benchmark receives a 200 response whose
statistics are computed from the placeholder single sample `[0]` (average,
minimum, maximum, p95 and throughput all zero), echoing the request; no
benchmark is executed and no 400 response exists on this endpoint. -/
theorem c1_invalid_combo_returns_ok_zero_stats (d : ℕ → ℕ)
    (req : Lattice.KemBenchRequest)
    (h : Lattice.kemDispatch req.param_set req.operation = none) :
    Lattice.kem_bench d req =
      HandlerResult.ok ⟨req.operation, req.param_set, Lattice.kemClamp req.iterations,
        F64.val 0, 0, 0, 0, F64.val 0⟩ := by
  rw [Lattice.kem_bench]
  simp [Lattice.kem_timings, h, lattice_stats_zero]

/-- Witness for C1 at a concrete invalid request. -/
theorem c1_witness :
    Lattice.kem_bench (fun _ => 0) ⟨"ml_kem_999", 7, "encaps"⟩ =
      HandlerResult.ok ⟨"encaps", "ml_kem_999", 7, F64.val 0, 0, 0, 0, F64.val 0⟩ := by
  have h := c1_invalid_combo_returns_ok_zero_stats (fun _ => 0)
    ⟨"ml_kem_999", 7, "encaps"⟩ (by decide)
  simpa [Lattice.kemClamp] using h

/-- Claim C2, failing input: the benchmark registered for
(`ml_kem_1024`, `encaps`) is `bench_encaps_1024`, whose setup generates an
ML-KEM-512 keypair and whose timed body is therefore ML-KEM-512
encapsulation — not the ML-KEM-1024 encapsulation the operation identity
names. -/
theorem c2_encaps_1024_wrong_param_set :
    Lattice.kemDispatch "ml_kem_1024" "encaps" = some Lattice.bench_encaps_1024 ∧
    Lattice.bench_encaps_1024 =
      ⟨[Lattice.Prim.keygen Lattice.Param.p512], [Lattice.Prim.encaps Lattice.Param.p512]⟩ ∧
    Lattice.bench_encaps_1024.timedBody ≠ [Lattice.Prim.encaps Lattice.Param.p1024] := by
  exact ⟨by decide, rfl, by decide⟩

/-- Claim C3: the full call list of the `suite` command.  The second KEM
parameter set iterated is the string `"ml_kem_767"` — not `"ml_kem_768"` —
and no lattice-service dispatch arm exists for it, so those four suite
calls benchmark nothing real; the verify iteration count is
`zk_iterations * 10` as claimed. -/
theorem c3_suite_matrix :
    "ml_kem_768" ∉ Client.suite_kem_param_sets ∧
    "ml_kem_767" ∈ Client.suite_kem_param_sets ∧
    (∀ op : String, Lattice.kemDispatch "ml_kem_767" op = none) ∧
    (∀ k z : ℕ, Client.suite_calls k z =
      [⟨"lattice_service", "ml_kem_512", "keygen", k⟩,
       ⟨"lattice_service", "ml_kem_512", "encaps", k⟩,
       ⟨"lattice_service", "ml_kem_512", "decaps", k⟩,
       ⟨"lattice_service", "ml_kem_512", "full_handshake", k⟩,
       ⟨"lattice_service", "ml_kem_767", "keygen", k⟩,
       ⟨"lattice_service", "ml_kem_767", "encaps", k⟩,
       ⟨"lattice_service", "ml_kem_767", "decaps", k⟩,
       ⟨"lattice_service", "ml_kem_767", "full_handshake", k⟩,
       ⟨"lattice_service", "ml_kem_1024", "keygen", k⟩,
       ⟨"lattice_service", "ml_kem_1024", "encaps", k⟩,
       ⟨"lattice_service", "ml_kem_1024", "decaps", k⟩,
       ⟨"lattice_service", "ml_kem_1024", "full_handshake", k⟩,
       ⟨"zk_service", "multiply", "prove", z⟩,
       ⟨"zk_service", "multiply", "verify", z * 10⟩,
       ⟨"zk_service", "cube_root", "prove", z⟩,
       ⟨"zk_service", "cube_root", "verify", z * 10⟩]) := by
  refine ⟨by decide, by decide, ?_, fun k z => rfl⟩
  intro op
  simp [Lattice.kemDispatch]

/-- Claim C4: the two statistics reductions evaluated on the empty
sequence.  The zk service returns all zeros; the lattice service returns
zeros for minimum, maximum, p95 and throughput but `0.0 / 0.0 = NaN` for
the average (there is no emptiness guard before the mean), so not every
field is 0.  Neither panics. -/
theorem c4_empty_stats :
    Lattice.compute_stats [] = ⟨F64.nan, 0, 0, 0, F64.val 0⟩ ∧
    (Lattice.compute_stats []).avg ≠ F64.val 0 ∧
    Zk.compute_stats [] = some ⟨F64.val 0, 0, 0, 0, F64.val 0⟩ := by
  have h : Lattice.compute_stats [] = ⟨F64.nan, 0, 0, 0, F64.val 0⟩ := by
    simp [Lattice.compute_stats, Lattice.compute_p95, fdiv, F64.gt0]
  refine ⟨h, ?_, rfl⟩
  rw [h]
  decide

/-- Claim C5: for a non-empty sample of length L, both services' p95 is
the element at index `min ⌊L * 0.95⌋ (L - 1)` of the ascending-sorted
sequence (any sorted permutation `s`); a single sample is its own p95 and
L = 20 selects index 19. -/
theorem c5_p95_nearest_rank (l s : List ℕ) (hne : l ≠ [])
    (hperm : s.Perm l) (hsort : s.Sorted (· ≤ ·)) :
    Lattice.compute_p95 l =
      ((s.getD (min ⌊(l.length : ℚ) * (95 / 100)⌋₊ (l.length - 1)) 0 : ℕ) : ℚ) ∧
    Zk.compute_percentile l (95 / 100) = some (Lattice.compute_p95 l) ∧
    (∀ a : ℕ, Lattice.compute_p95 [a] = (a : ℚ)) ∧
    (l.length = 20 → Lattice.compute_p95 l = ((s.getD 19 0 : ℕ) : ℚ)) := by
  have hs : s = sortAsc l := sortAsc_unique l s hperm hsort
  have h1 : Lattice.compute_p95 l =
      ((s.getD (min ⌊(l.length : ℚ) * (95 / 100)⌋₊ (l.length - 1)) 0 : ℕ) : ℚ) := by
    rw [hs, p95_index_eq, compute_p95_eq_getD l hne]
  refine ⟨h1, compute_percentile_nonempty l hne, ?_, ?_⟩
  · intro a
    rw [compute_p95_eq_getD [a] (by simp)]
    simp [sortAsc]
  · intro h20
    rw [h1, h20]
    norm_num [p95_index_eq]

/-- Witness for C5: the sample [5, 1, 3] sorts to [1, 3, 5]; the nearest
rank index is min ⌊3 · 0.95⌋ 2 = 2, so p95 is 5. -/
theorem c5_witness : Lattice.compute_p95 [5, 1, 3] = 5 := by
  have h := (c5_p95_nearest_rank [5, 1, 3] [1, 3, 5] (by decide) (by decide) (by decide)).1
  rw [h, p95_index_eq]
  norm_num

/-- Claim C6: iteration counts are clamped (never rejected) into the
family ranges — `/kem_bench` into [1, 10000], `/zk_prove_bench` into
[1, 1000], `/zk_verify_bench` into [1, 5000] — in-range counts pass
through unchanged, 0 becomes 1, 50000 becomes 10000, and for every
registered combination the number of executed (sampled) iterations equals
the clamped count. -/
theorem c6_iteration_clamping :
    (∀ n : ℕ, 1 ≤ Lattice.kemClamp n ∧ Lattice.kemClamp n ≤ 10000 ∧
      (1 ≤ n → n ≤ 10000 → Lattice.kemClamp n = n)) ∧
    (∀ n : ℕ, 1 ≤ Zk.zkProveClamp n ∧ Zk.zkProveClamp n ≤ 1000 ∧
      (1 ≤ n → n ≤ 1000 → Zk.zkProveClamp n = n)) ∧
    (∀ n : ℕ, 1 ≤ Zk.zkVerifyClamp n ∧ Zk.zkVerifyClamp n ≤ 5000 ∧
      (1 ≤ n → n ≤ 5000 → Zk.zkVerifyClamp n = n)) ∧
    Lattice.kemClamp 0 = 1 ∧ Lattice.kemClamp 50000 = 10000 ∧
    (∀ (d : ℕ → ℕ) (ps op : String) (n : ℕ) (b : Lattice.KemBench),
      Lattice.kemDispatch ps op = some b →
      (Lattice.kem_timings d ⟨ps, n, op⟩).length = Lattice.kemClamp n) := by
  refine ⟨?_, ?_, ?_, by decide, by decide, ?_⟩
  · intro n
    unfold Lattice.kemClamp
    omega
  · intro n
    unfold Zk.zkProveClamp
    omega
  · intro n
    unfold Zk.zkVerifyClamp
    omega
  · intro d ps op n b h
    simp [Lattice.kem_timings, h, benchTimings]

/-- Witness for C6: requesting 0 iterations of ml_kem_512 keygen executes
exactly one sampled iteration. -/
theorem c6_witness :
    (Lattice.kem_timings (fun _ => 0) ⟨"ml_kem_512", 0, "keygen"⟩).length = 1 := by
  have h := c6_iteration_clamping.2.2.2.2.2 (fun _ => 0) "ml_kem_512" "keygen" 0
    Lattice.bench_keygen_512 (by decide)
  simpa [Lattice.kemClamp] using h

/-- Claim C10: `compute_percentile` itself panics on the empty sequence
(the `usize` underflow makes the index out of bounds — the `none`), but
the zk statistics reduction returns early with all-zero stats on empty
input and so never reaches that branch: it is total on every input. -/
theorem c10_percentile_totality :
    Zk.compute_percentile [] (95 / 100) = none ∧
    (∀ l : List ℕ, (Zk.compute_stats l).isSome = true) := by
  refine ⟨compute_percentile_empty _, ?_⟩
  intro l
  by_cases hl : l = []
  · subst hl
    rfl
  · obtain ⟨m, hm, -, -⟩ := min?_spec l hl
    obtain ⟨M, hM, -, -⟩ := max?_spec l hl
    rw [zk_stats_nonempty l hl m M hm hM]
    rfl

theorem kem_aggregate_nonempty (rs : List Client.KemResp) (hne : rs ≠ []) :
    Client.kem_aggregate rs =
      ⟨(rs.map (·.avg_us)).sum / (rs.length : ℚ) / 1000,
       ((rs.map (·.min_us)).foldl Min.min Client.f64MAX) / 1000,
       ((rs.map (·.max_us)).foldl Max.max 0) / 1000,
       (rs.map (·.p95_us)).sum / (rs.length : ℚ) / 1000,
       (rs.map (·.throughput_ops_sec)).sum / (rs.length : ℚ)⟩ := by
  rw [Client.kem_aggregate, if_neg (by simp [hne])]

theorem zk_prove_aggregate_nonempty (rs : List Client.ZkProveResp) (hne : rs ≠ []) :
    Client.zk_prove_aggregate rs =
      ⟨(rs.map (·.avg_prove_ms)).sum / (rs.length : ℚ),
       (rs.map (·.min_prove_ms)).foldl Min.min Client.f64MAX,
       (rs.map (·.max_prove_ms)).foldl Max.max 0,
       (rs.map (·.p95_prove_ms)).sum / (rs.length : ℚ),
       (rs.map (·.throughput_proofs_sec)).sum / (rs.length : ℚ)⟩ := by
  rw [Client.zk_prove_aggregate, if_neg (by simp [hne])]

theorem error_count_of_no_success {α : Type} (outcomes : List (Option α))
    (h : Client.successes outcomes = []) :
    Client.error_count outcomes = outcomes.length := by
  induction outcomes with
  | nil => rfl
  | cons o os ih =>
    cases o with
    | some a => simp [Client.successes] at h
    | none =>
      have h' : Client.successes os = [] := by simpa [Client.successes] using h
      simp only [Client.error_count, List.filter_cons, Option.isNone_none, if_pos,
        List.length_cons]
      have := ih h'
      simp only [Client.error_count] at this
      simp [this]

/-- Claim C7: the batch aggregator.  If no response succeeded the failure
counter equals the batch size and every aggregated field is 0.  On a
non-empty success list the latency fields are arithmetic means of the
per-response statistics (for the KEM path scaled from µs to ms), the
minimum field is the least per-response minimum, the maximum field the
greatest per-response maximum, and throughput is the unscaled mean of
per-response throughputs.  (The bounds hypotheses reflect the fold seeds
`f64::MAX` and `0.0`.) -/
theorem c7_aggregation :
    (∀ outcomes : List (Option Client.KemResp),
      Client.successes outcomes = [] →
      Client.error_count outcomes = outcomes.length ∧
      Client.kem_aggregate (Client.successes outcomes) = ⟨0, 0, 0, 0, 0⟩) ∧
    (∀ rs : List Client.KemResp, rs ≠ [] →
      (∀ r ∈ rs, 0 ≤ r.max_us ∧ r.min_us ≤ Client.f64MAX) →
      ∃ m M : ℚ,
        m ∈ rs.map (·.min_us) ∧ (∀ x ∈ rs.map (·.min_us), m ≤ x) ∧
        M ∈ rs.map (·.max_us) ∧ (∀ x ∈ rs.map (·.max_us), x ≤ M) ∧
        Client.kem_aggregate rs =
          ⟨(rs.map (·.avg_us)).sum / (rs.length : ℚ) / 1000,
           m / 1000, M / 1000,
           (rs.map (·.p95_us)).sum / (rs.length : ℚ) / 1000,
           (rs.map (·.throughput_ops_sec)).sum / (rs.length : ℚ)⟩) ∧
    (∀ rs : List Client.ZkProveResp, rs ≠ [] →
      (∀ r ∈ rs, 0 ≤ r.max_prove_ms ∧ r.min_prove_ms ≤ Client.f64MAX) →
      ∃ m M : ℚ,
        m ∈ rs.map (·.min_prove_ms) ∧ (∀ x ∈ rs.map (·.min_prove_ms), m ≤ x) ∧
        M ∈ rs.map (·.max_prove_ms) ∧ (∀ x ∈ rs.map (·.max_prove_ms), x ≤ M) ∧
        Client.zk_prove_aggregate rs =
          ⟨(rs.map (·.avg_prove_ms)).sum / (rs.length : ℚ),
           m, M,
           (rs.map (·.p95_prove_ms)).sum / (rs.length : ℚ),
           (rs.map (·.throughput_proofs_sec)).sum / (rs.length : ℚ)⟩) := by
  refine ⟨?_, ?_, ?_⟩
  · intro outcomes h
    refine ⟨error_count_of_no_success outcomes h, ?_⟩
    rw [h]
    rfl
  · intro rs hne hb
    refine ⟨(rs.map (·.min_us)).foldl Min.min Client.f64MAX,
            (rs.map (·.max_us)).foldl Max.max 0, ?_, ?_, ?_, ?_, ?_⟩
    · refine foldl_min_mem _ _ (by simpa using hne) ?_
      intro x hx
      obtain ⟨r, hr, rfl⟩ := List.mem_map.mp hx
      exact (hb r hr).2
    · intro x hx
      exact foldl_min_le_mem _ _ hx
    · refine foldl_max_mem _ _ (by simpa using hne) ?_
      intro x hx
      obtain ⟨r, hr, rfl⟩ := List.mem_map.mp hx
      exact (hb r hr).1
    · intro x hx
      exact mem_le_foldl_max _ _ hx
    · exact kem_aggregate_nonempty rs hne
  · intro rs hne hb
    refine ⟨(rs.map (·.min_prove_ms)).foldl Min.min Client.f64MAX,
            (rs.map (·.max_prove_ms)).foldl Max.max 0, ?_, ?_, ?_, ?_, ?_⟩
    · refine foldl_min_mem _ _ (by simpa using hne) ?_
      intro x hx
      obtain ⟨r, hr, rfl⟩ := List.mem_map.mp hx
      exact (hb r hr).2
    · intro x hx
      exact foldl_min_le_mem _ _ hx
    · refine foldl_max_mem _ _ (by simpa using hne) ?_
      intro x hx
      obtain ⟨r, hr, rfl⟩ := List.mem_map.mp hx
      exact (hb r hr).1
    · intro x hx
      exact mem_le_foldl_max _ _ hx
    · exact zk_prove_aggregate_nonempty rs hne

/-- Witness for C7, the spec's example batch: three responses with
minimums 10, 20, 15 and maximums 50, 40, 45. -/
theorem c7_witness :
    ∃ m M : ℚ,
      m ∈ ([⟨30, 10, 50, 30, 1⟩, ⟨30, 20, 40, 30, 1⟩, ⟨30, 15, 45, 30, 1⟩] :
          List Client.ZkProveResp).map (·.min_prove_ms) ∧
      (∀ x ∈ ([⟨30, 10, 50, 30, 1⟩, ⟨30, 20, 40, 30, 1⟩, ⟨30, 15, 45, 30, 1⟩] :
          List Client.ZkProveResp).map (·.min_prove_ms), m ≤ x) ∧
      M ∈ ([⟨30, 10, 50, 30, 1⟩, ⟨30, 20, 40, 30, 1⟩, ⟨30, 15, 45, 30, 1⟩] :
          List Client.ZkProveResp).map (·.max_prove_ms) ∧
      (∀ x ∈ ([⟨30, 10, 50, 30, 1⟩, ⟨30, 20, 40, 30, 1⟩, ⟨30, 15, 45, 30, 1⟩] :
          List Client.ZkProveResp).map (·.max_prove_ms), x ≤ M) ∧
      Client.zk_prove_aggregate
          [⟨30, 10, 50, 30, 1⟩, ⟨30, 20, 40, 30, 1⟩, ⟨30, 15, 45, 30, 1⟩] =
        ⟨(([⟨30, 10, 50, 30, 1⟩, ⟨30, 20, 40, 30, 1⟩, ⟨30, 15, 45, 30, 1⟩] :
            List Client.ZkProveResp).map (·.avg_prove_ms)).sum / 3,
         m, M,
         (([⟨30, 10, 50, 30, 1⟩, ⟨30, 20, 40, 30, 1⟩, ⟨30, 15, 45, 30, 1⟩] :
            List Client.ZkProveResp).map (·.p95_prove_ms)).sum / 3,
         (([⟨30, 10, 50, 30, 1⟩, ⟨30, 20, 40, 30, 1⟩, ⟨30, 15, 45, 30, 1⟩] :
            List Client.ZkProveResp).map (·.throughput_proofs_sec)).sum / 3⟩ := by
  have h := c7_aggregation.2.2
    [⟨30, 10, 50, 30, 1⟩, ⟨30, 20, 40, 30, 1⟩, ⟨30, 15, 45, 30, 1⟩]
    (by decide) (by norm_num [Client.f64MAX])
  simpa using h

/-- Claim C8: on every non-empty sample both services satisfy
`throughput = 1,000,000 / average-in-µs` when the average is positive
(for the zk service the reported average is in ms, so
`t * (1000 * avg_ms) = 1,000,000`), with `throughput = 0` iff the average
is 0.  On the empty sample, however, the lattice reduction has
`throughput = 0` while its average is NaN, not 0, so the claimed
equivalence fails there. -/
theorem c8_throughput_inverse_of_average :
    ((Lattice.compute_stats []).throughput = F64.val 0 ∧
     (Lattice.compute_stats []).avg ≠ F64.val 0) ∧
    (∀ l : List ℕ, l ≠ [] →
      ∃ a t : ℚ, (Lattice.compute_stats l).avg = F64.val a ∧
        (Lattice.compute_stats l).throughput = F64.val t ∧
        (0 < a → t = 1000000 / a ∧ t * a = 1000000) ∧ (t = 0 ↔ a = 0)) ∧
    (∀ l : List ℕ, l ≠ [] →
      ∃ (a t : ℚ) (s : Zk.ZkStats), Zk.compute_stats l = some s ∧
        s.avg_ms = F64.val a ∧ s.throughput = F64.val t ∧
        (0 < a → t = 1000 / a ∧ t * (1000 * a) = 1000000) ∧ (t = 0 ↔ a = 0)) := by
  have hempty : Lattice.compute_stats [] = ⟨F64.nan, 0, 0, 0, F64.val 0⟩ := by
    simp [Lattice.compute_stats, Lattice.compute_p95, fdiv, F64.gt0]
  refine ⟨⟨by rw [hempty], by rw [hempty]; decide⟩, ?_, ?_⟩
  · intro l hl
    have hst := lattice_stats_nonempty l hl
    set a := (l.sum : ℚ) / (l.length : ℚ) with ha
    have ha0 : 0 ≤ a := div_nonneg (Nat.cast_nonneg _) (Nat.cast_nonneg _)
    by_cases hpos : 0 < a
    · refine ⟨a, 1000000 / a, by rw [hst], ?_, ?_, ?_⟩
      · rw [hst]
        simp [hpos]
      · intro _
        exact ⟨rfl, div_mul_cancel₀ _ (ne_of_gt hpos)⟩
      · constructor
        · intro ht
          exact absurd ht (div_ne_zero (by norm_num) (ne_of_gt hpos))
        · intro h0
          exact absurd (h0 ▸ hpos) (lt_irrefl 0)
    · have h0 : a = 0 := le_antisymm (not_lt.mp hpos) ha0
      refine ⟨a, 0, by rw [hst], ?_, ?_, ?_⟩
      · rw [hst]
        simp [hpos]
      · intro hc
        exact absurd hc hpos
      · exact ⟨fun _ => h0, fun _ => rfl⟩
  · intro l hl
    obtain ⟨m, hm, -, -⟩ := min?_spec l hl
    obtain ⟨M, hM, -, -⟩ := max?_spec l hl
    have hst := zk_stats_nonempty l hl m M hm hM
    set a := (l.sum : ℚ) / (l.length : ℚ) / 1000 with ha
    have ha0 : 0 ≤ a := by positivity
    by_cases hpos : 0 < a
    · refine ⟨a, 1000 / a, _, hst, rfl, ?_, ?_, ?_⟩
      · show (if 0 < a then F64.val (1000 / a) else F64.val 0) = F64.val (1000 / a)
        rw [if_pos hpos]
      · intro _
        refine ⟨rfl, ?_⟩
        have hane : a ≠ 0 := ne_of_gt hpos
        field_simp
        ring
      · constructor
        · intro ht
          exact absurd ht (div_ne_zero (by norm_num) (ne_of_gt hpos))
        · intro h0
          exact absurd (h0 ▸ hpos) (lt_irrefl 0)
    · have h0 : a = 0 := le_antisymm (not_lt.mp hpos) ha0
      refine ⟨a, 0, _, hst, rfl, ?_, ?_, ?_⟩
      · show (if 0 < a then F64.val (1000 / a) else F64.val 0) = F64.val 0
        rw [if_neg hpos]
      · intro hc
        exact absurd hc hpos
      · exact ⟨fun _ => h0, fun _ => rfl⟩

/-- Witness for C8 on the sample [7]. -/
theorem c8_witness :
    ∃ a t : ℚ, (Lattice.compute_stats [7]).avg = F64.val a ∧
      (Lattice.compute_stats [7]).throughput = F64.val t ∧
      (0 < a → t = 1000000 / a ∧ t * a = 1000000) ∧ (t = 0 ↔ a = 0) :=
  c8_throughput_inverse_of_average.2.1 [7] (by decide)

/-- Claim C9: for every non-empty sample the lattice statistics satisfy
minimum ≤ average ≤ maximum and minimum ≤ p95 ≤ maximum; and the client's
kem aggregate satisfies min-of-mins ≤ mean-of-averages ≤ max-of-maxes
whenever at least one response exists (each response obeying its own
min ≤ avg ≤ max). -/
theorem c9_min_le_avg_le_max :
    (∀ l : List ℕ, l ≠ [] →
      ∃ a : ℚ, (Lattice.compute_stats l).avg = F64.val a ∧
        (Lattice.compute_stats l).min ≤ a ∧ a ≤ (Lattice.compute_stats l).max ∧
        (Lattice.compute_stats l).min ≤ (Lattice.compute_stats l).p95 ∧
        (Lattice.compute_stats l).p95 ≤ (Lattice.compute_stats l).max) ∧
    (∀ rs : List Client.KemResp, rs ≠ [] →
      (∀ r ∈ rs, r.min_us ≤ r.avg_us ∧ r.avg_us ≤ r.max_us) →
      (Client.kem_aggregate rs).min_latency_ms ≤ (Client.kem_aggregate rs).avg_latency_ms ∧
      (Client.kem_aggregate rs).avg_latency_ms ≤ (Client.kem_aggregate rs).max_latency_ms) := by
  constructor
  · intro l hl
    obtain ⟨m, hm, hmMem, hmLe⟩ := min?_spec l hl
    obtain ⟨M, hM, hMMem, hMLe⟩ := max?_spec l hl
    obtain ⟨x, hxMem, hx⟩ := compute_p95_mem l hl
    refine ⟨(l.sum : ℚ) / (l.length : ℚ), ?_, ?_, ?_, ?_, ?_⟩ <;>
      simp only [lattice_stats_nonempty l hl, hm, hM, Option.getD_some]
    · exact le_sum_div_length l m hl hmLe
    · exact sum_div_length_le l M hl hMLe
    · rw [hx]
      exact_mod_cast hmLe x hxMem
    · rw [hx]
      exact_mod_cast hMLe x hxMem
  · intro rs hne hb
    have hme : rs.map (·.avg_us) ≠ [] := by simpa using hne
    have hlen : (rs.map (·.avg_us)).length = rs.length := List.length_map _ _
    have hlow : ∀ y ∈ rs.map (·.avg_us),
        (rs.map (·.min_us)).foldl Min.min Client.f64MAX ≤ y := by
      intro y hy
      obtain ⟨r, hr, rfl⟩ := List.mem_map.mp hy
      exact le_trans (foldl_min_le_mem _ _ (List.mem_map_of_mem _ hr)) (hb r hr).1
    have hhigh : ∀ y ∈ rs.map (·.avg_us),
        y ≤ (rs.map (·.max_us)).foldl Max.max 0 := by
      intro y hy
      obtain ⟨r, hr, rfl⟩ := List.mem_map.mp hy
      exact le_trans (hb r hr).2 (mem_le_foldl_max _ _ (List.mem_map_of_mem _ hr))
    have h1 := le_qsum_div_length _ _ hme hlow
    have h2 := qsum_div_length_le _ _ hme hhigh
    rw [hlen] at h1 h2
    rw [kem_aggregate_nonempty rs hne]
    constructor
    · show ((rs.map (·.min_us)).foldl Min.min Client.f64MAX) / 1000 ≤
        (rs.map (·.avg_us)).sum / (rs.length : ℚ) / 1000
      gcongr
    · show (rs.map (·.avg_us)).sum / (rs.length : ℚ) / 1000 ≤
        ((rs.map (·.max_us)).foldl Max.max 0) / 1000
      gcongr

/-- Witness for C9: the sample [3] and a one-response batch. -/
theorem c9_witness :
    (∃ a : ℚ, (Lattice.compute_stats [3]).avg = F64.val a ∧
      (Lattice.compute_stats [3]).min ≤ a ∧ a ≤ (Lattice.compute_stats [3]).max ∧
      (Lattice.compute_stats [3]).min ≤ (Lattice.compute_stats [3]).p95 ∧
      (Lattice.compute_stats [3]).p95 ≤ (Lattice.compute_stats [3]).max) ∧
    ((Client.kem_aggregate [⟨2, 1, 3, 2, 1⟩]).min_latency_ms ≤
      (Client.kem_aggregate [⟨2, 1, 3, 2, 1⟩]).avg_latency_ms ∧
     (Client.kem_aggregate [⟨2, 1, 3, 2, 1⟩]).avg_latency_ms ≤
      (Client.kem_aggregate [⟨2, 1, 3, 2, 1⟩]).max_latency_ms) :=
  ⟨c9_min_le_avg_le_max.1 [3] (by decide),
   c9_min_le_avg_le_max.2 [⟨2, 1, 3, 2, 1⟩] (by decide) (by norm_num)⟩
